import Mathlib

/-! exec-log: a shallow embedding of `main.go`

The program serves two WebSocket endpoints, `/exec` and `/log`, that bridge a
browser client to a container of a Kubernetes pod.  This file embeds the
functions of `main.go` as Lean definitions and proves properties of them.

Conventions of the embedding

* A Go `map[string][]string` (the result of `r.URL.Query()`) is a list of
  `(key, values)` pairs with pairwise distinct keys.  The order of the list is
  the order in which `range` visits the map, so a statement quantified over
  all such lists holds for every iteration order.
* A Go runtime fault (index out of range, nil dereference) is an explicit
  result: `none` for the pure parsers, `Call.panicked` for the handlers.
* Calls into libraries that are not part of the repository (the cluster
  client, the WebSocket upgrade, the SPDY executor, `term.TTY.Safe`,
  `ParseRFC3339`) take their results from a `World` record, one field per
  call, so that every theorem quantified over `World` holds for whatever the
  libraries answer.
* Errors are carried as their text.
-/

namespace ExecLog

/-! ## Data model -/

/-- One byte of a message payload. -/
abbrev Byte := UInt8

/-- Query values as produced by `r.URL.Query()`, in iteration order. -/
abbrev Values := List (String × List String)

/-- The keys of a query map, in iteration order. -/
def Values.keys (values : Values) : List String :=
  values.map Prod.fst

/-- Well-formedness of a query map: keys are pairwise distinct (it is a map)
and every key carries at least one value (the URL parser only creates a key
by appending a value to it). -/
def Values.WF (values : Values) : Prop :=
  values.keys.Nodup ∧ ∀ kv ∈ values, kv.2 ≠ []

/-- Struct `ExecOption` of `main.go`. -/
structure ExecOption where
  podName : String := ""
  nameSpace : String := ""
  containerName : String := ""
  stdin : Bool := false
  stdout : Bool := false
  stderr : Bool := false
  tty : Bool := false
  command : List String := []
deriving DecidableEq, Repr

/-- A point in time, as carried by `metav1.Time`. -/
abbrev Time := Nat

/-- Struct `LogOptions` of `main.go`, with the fields of the embedded
`api.PodLogOptions` that the program touches. -/
structure LogOptions where
  Container : String := ""
  Timestamps : Bool := false
  Follow : Bool := false
  SinceTime : Option Time := none
  PodName : String := ""
  NameSpace : String := ""
deriving DecidableEq, Repr

/-- An `io.Reader` / `io.Writer` value that can be stored in a stream slot.
`ioWrapper` is the session's `WebsocketIOWrapper`; `osStdin`, `osStdout` and
`osStderr` are the process streams returned by `dockerterm.StdStreams()`. -/
inductive Stream where
  | ioWrapper
  | osStdin
  | osStdout
  | osStderr
  | other (id : Nat)
deriving DecidableEq, Repr

/-- Struct `StreamOptions` of `main.go`.  A `nil` interface is `none`. -/
structure StreamOptions where
  Namespace : String := ""
  PodName : String := ""
  ContainerName : String := ""
  Stdin : Bool := false
  TTY : Bool := false
  Quiet : Bool := false
  In : Option Stream := none
  Out : Option Stream := none
  Err : Option Stream := none
deriving DecidableEq, Repr

/-- The fields of `term.TTY` that `main.go` reads or writes. -/
structure TTY where
  In : Option Stream := none
  Out : Option Stream := none
  Raw : Bool := false
deriving DecidableEq, Repr

/-! ## Query parsing -/

/-- Go `strconv.ParseBool`: the value and whether an error was returned. -/
def ParseBool (str : String) : Bool × Bool :=
  if str = "1" ∨ str = "t" ∨ str = "T" ∨ str = "true" ∨ str = "TRUE" ∨ str = "True" then
    (true, false)
  else if str = "0" ∨ str = "f" ∨ str = "F" ∨ str = "false" ∨ str = "FALSE" ∨ str = "False" then
    (false, false)
  else
    (false, true)

/-- One iteration of the `for k, v := range values` loop of `getExecOption`.
`none` is the index-out-of-range fault of `v[0]` on an empty slice. -/
def getExecOption.step (option : ExecOption) (k : String) (v : List String) :
    Option ExecOption :=
  if k = "container" then
    v.head?.map fun v0 => { option with containerName := v0 }
  else if k = "command" then
    some { option with command := v }
  else if k = "namespace" then
    v.head?.map fun v0 => { option with nameSpace := v0 }
  else if k = "pod" then
    v.head?.map fun v0 => { option with podName := v0 }
  else if k = "tty" then
    v.head?.map fun v0 => { option with tty := (ParseBool v0).1 }
  else if k = "stdin" then
    v.head?.map fun v0 => { option with stdin := (ParseBool v0).1 }
  else if k = "stdout" then
    v.head?.map fun v0 => { option with stdout := (ParseBool v0).1 }
  else if k = "stderr" then
    v.head?.map fun v0 => { option with stderr := (ParseBool v0).1 }
  else
    some option

/-- The loop of `getExecOption`, started from the options built so far. -/
def getExecOption.loop : ExecOption → Values → Option ExecOption
  | option, [] => some option
  | option, (k, v) :: rest =>
    match getExecOption.step option k v with
    | none => none
    | some option1 => getExecOption.loop option1 rest

/-- Function `getExecOption` of `main.go`. -/
def getExecOption (values : Values) : Option ExecOption :=
  getExecOption.loop {} values

/-- One iteration of the `for k, v := range values` loop of
`generateLogOptions`: the options after the iteration and, when the
iteration returns from the function, the error it returns.  `none` is the
index-out-of-range fault of `v[0]` on an empty slice.  `parseRFC3339` stands
for `kubeutil.ParseRFC3339`. -/
def generateLogOptions.step (parseRFC3339 : String → Except String Time)
    (options : LogOptions) (k : String) (v : List String) :
    Option (LogOptions × Option String) :=
  if k = "pod" then
    v.head?.map fun v0 => ({ options with PodName := v0 }, none)
  else if k = "namespace" then
    v.head?.map fun v0 => ({ options with NameSpace := v0 }, none)
  else if k = "containerName" then
    v.head?.map fun v0 => ({ options with Container := v0 }, none)
  else if k = "timestamp" then
    v.head?.map fun v0 => ({ options with Timestamps := (ParseBool v0).1 }, none)
  else if k = "follow" then
    v.head?.map fun v0 => ({ options with Follow := (ParseBool v0).1 }, none)
  else if k = "since" then
    v.head?.map fun v0 =>
      match parseRFC3339 v0 with
      | .error err => (options, some err)
      | .ok t => ({ options with SinceTime := some t }, none)
  else
    some (options, none)

/-- The loop of `generateLogOptions`.  The result is Go's pair
`(options, err)`; `none` is a runtime fault. -/
def generateLogOptions.loop (parseRFC3339 : String → Except String Time) :
    LogOptions → Values → Option (LogOptions × Option String)
  | options, [] => some (options, none)
  | options, (k, v) :: rest =>
    match generateLogOptions.step parseRFC3339 options k v with
    | none => none
    | some (options1, some err) => some (options1, some err)
    | some (options1, none) => generateLogOptions.loop parseRFC3339 options1 rest

/-- Function `generateLogOptions` of `main.go`. -/
def generateLogOptions (parseRFC3339 : String → Except String Time) (values : Values) :
    Option (LogOptions × Option String) :=
  generateLogOptions.loop parseRFC3339 {} values

/-! ## TTY negotiation -/

/-- Method `(*StreamOptions).setupTTY` of `main.go`.  The receiver is a
pointer, so the result carries the updated options next to the returned
`term.TTY`. -/
def StreamOptions.setupTTY (o : StreamOptions) : ExecLog.TTY × StreamOptions :=
  let t : ExecLog.TTY := { Out := o.Out }
  if !o.Stdin then
    (t, { o with In := none, TTY := false })
  else
    let t : ExecLog.TTY := { t with In := o.In }
    if !o.TTY then
      (t, o)
    else
      let t : ExecLog.TTY := { t with Raw := true }
      let o : StreamOptions := { o with In := some Stream.osStdin }
      let t : ExecLog.TTY := { t with In := some Stream.osStdin }
      if o.Out ≠ none then
        ({ t with Out := some Stream.osStdout }, { o with Out := some Stream.osStdout })
      else
        (t, o)

/-! ## Frame adapter -/

/-- Constant `websocket.TextMessage`. -/
def TextMessage : Int := 1

/-- Constant `websocket.CloseMessage`. -/
def CloseMessage : Int := 8

/-- One call of `Conn.WriteMessage`: the message type, the payload, and the
error the call returned (`none` when the message went out). -/
structure Frame where
  messageType : Int
  payload : List Byte
  err : Option String
deriving DecidableEq, Repr

/-- A `*websocket.Conn`.  `inbound` lists what the successive calls of
`ReadMessage` will return (a message with its type, or an error);
`writeErrs` lists what the successive calls of `WriteMessage` will return
(once exhausted, `nil`); `written` records the `WriteMessage` calls made so
far, oldest first. -/
structure Conn where
  inbound : List (Except String (Int × List Byte)) := []
  writeErrs : List (Option String) := []
  written : List Frame := []

/-- Method `Conn.ReadMessage`: the next inbound message, whole.  `none`
means that no message ever arrives and the call blocks for ever. -/
def Conn.ReadMessage (c : Conn) : Option (Conn × Int × List Byte × Option String) :=
  match c.inbound with
  | [] => none
  | .ok (messageType, data) :: rest => some ({ c with inbound := rest }, messageType, data, none)
  | .error err :: rest => some ({ c with inbound := rest }, -1, [], some err)

/-- Method `Conn.WriteMessage`: one outbound message, and the error of the
call. -/
def Conn.WriteMessage (c : Conn) (messageType : Int) (data : List Byte) :
    Conn × Option String :=
  match c.writeErrs with
  | [] => ({ c with written := c.written ++ [⟨messageType, data, none⟩] }, none)
  | err :: rest =>
    ({ c with writeErrs := rest, written := c.written ++ [⟨messageType, data, err⟩] }, err)

/-- How a call ends: it returns a value, the goroutine panics, or the call
never returns. -/
inductive Call (α : Type) where
  | ret (a : α)
  | panicked
  | blocked
deriving DecidableEq, Repr

/-- Go builtin `copy(dst, src)`: the destination after the copy and the
number of elements copied. -/
def copy (dst src : List Byte) : List Byte × Nat :=
  let n := min dst.length src.length
  (src.take n ++ dst.drop n, n)

/-- Struct `WebsocketIOWrapper` of `main.go`; a nil `Conn` is `none`. -/
structure WebsocketIOWrapper where
  Conn : Option Conn

/-- Method `(*WebsocketIOWrapper).Read` of `main.go`.  The result carries
the wrapper after the call, the buffer `p` after the call, `n` and `err`. -/
def WebsocketIOWrapper.Read (w : WebsocketIOWrapper) (p : List Byte) :
    Call (WebsocketIOWrapper × List Byte × Nat × Option String) :=
  match w.Conn with
  | none => .panicked
  | some conn =>
    match conn.ReadMessage with
    | none => .blocked
    | some (conn, _, data, err) =>
      if err ≠ none then
        .ret ({ Conn := some conn }, p, 0, err)
      else
        .ret ({ Conn := some conn }, (copy p data).1, (copy p data).2, none)

/-- Method `(*WebsocketIOWrapper).Write` of `main.go`.  The result carries
the wrapper after the call, `n` and `err`. -/
def WebsocketIOWrapper.Write (w : WebsocketIOWrapper) (p : List Byte) :
    Call (WebsocketIOWrapper × Nat × Option String) :=
  match w.Conn with
  | none => .panicked
  | some conn =>
    .ret ({ Conn := some (conn.WriteMessage TextMessage p).1 }, p.length,
      (conn.WriteMessage TextMessage p).2)

/-- An error returned by an `io.Reader`: the sentinel `io.EOF` or any other
error. -/
inductive ReadErr where
  | EOF
  | failure (msg : String)
deriving DecidableEq, Repr

/-- The text of a reader error, as `err.Error()` gives it. -/
def ReadErr.Error : ReadErr → String
  | .EOF => "EOF"
  | .failure msg => msg

/-- An `io.ReadCloser` seen from its caller: what the successive calls of
`Read` put in the buffer and return.  When the list is exhausted the next
`Read` never returns (a followed log that stays silent). -/
abbrev Reader := List (List Byte × Option ReadErr)

/-- Where a run of `io.Copy` stands when it stops: the destination, the
count of bytes written, and how the call ended (`ret err` is the returned
error). -/
structure CopyResult where
  dst : WebsocketIOWrapper
  written : Nat
  status : Call (Option String)

/-- The loop of Go `io.Copy(dst, src)` over a `WebsocketIOWrapper`. -/
def ioCopy (dst : WebsocketIOWrapper) (written : Nat) : Reader → CopyResult
  | [] => { dst := dst, written := written, status := .blocked }
  | (buf, er) :: src =>
    if 0 < buf.length then
      match dst.Write buf with
      | .panicked => { dst := dst, written := written, status := .panicked }
      | .blocked => { dst := dst, written := written, status := .blocked }
      | .ret (dst1, nw, ew) =>
        let written1 := if 0 < nw then written + nw else written
        if ew ≠ none then
          { dst := dst1, written := written1, status := .ret ew }
        else if buf.length ≠ nw then
          { dst := dst1, written := written1, status := .ret (some "short write") }
        else
          match er with
          | some ReadErr.EOF => { dst := dst1, written := written1, status := .ret none }
          | some e => { dst := dst1, written := written1, status := .ret (some e.Error) }
          | none => ioCopy dst1 written1 src
    else
      match er with
      | some ReadErr.EOF => { dst := dst, written := written, status := .ret none }
      | some e => { dst := dst, written := written, status := .ret (some e.Error) }
      | none => ioCopy dst written src

/-- The bytes of the text messages among `frames` that went out, in the
order they were sent. -/
def sentText : List Frame → List Byte
  | [] => []
  | f :: rest =>
    if f.messageType = TextMessage ∧ f.err = none then f.payload ++ sentText rest
    else sentText rest

/-- The byte sequence a reader produces: what its successive `Read` calls
deliver, up to and including the call that returns an error (`io.EOF`
included). -/
def produced : Reader → List Byte
  | [] => []
  | (buf, none) :: rest => buf ++ produced rest
  | (buf, some _) :: _ => buf

/-- The `WriteMessage` calls recorded on a connection pointer; none on a nil
pointer. -/
def writtenOn (conn : Option Conn) : List Frame :=
  match conn with
  | none => []
  | some c => c.written

/-! ## Collaborators -/

/-- An entry of `pod.Spec.Containers`. -/
structure Container where
  Name : String
deriving DecidableEq, Repr

/-- The fields of `v1.Pod` that the program reads: `Status.Phase` and
`Spec.Containers`. -/
structure Pod where
  Phase : String := ""
  Containers : List Container := []
deriving DecidableEq, Repr

/-- Constant `v1.PodSucceeded`. -/
def PodSucceeded : String := "Succeeded"

/-- Constant `v1.PodFailed`. -/
def PodFailed : String := "Failed"

/-- Struct `v1.PodExecOptions`, as filled in by `HandleExec`. -/
structure PodExecOptions where
  Container : String
  Command : List String
  Stdin : Bool
  Stdout : Bool
  Stderr : Bool
  TTY : Bool
deriving DecidableEq, Repr

/-- Struct `v1.PodLogOptions`, as filled in by `HandleLog`. -/
structure PodLogOptions where
  Container : String
  Timestamps : Bool
  Follow : Bool
  SinceTime : Option Time
deriving DecidableEq, Repr

/-- Struct `remotecommand.StreamOptions`.  `TerminalSizeQueue` records
whether the queue is non-nil. -/
structure RemoteStreamOptions where
  Stdin : Option Stream
  Stdout : Option Stream
  Stderr : Option Stream
  Tty : Bool
  TerminalSizeQueue : Bool
deriving DecidableEq, Repr

/-- The answers of the libraries the handlers call.

* `getPod ns name`: `coreClient.CoreV1().Pods(ns).Get(name, ...)`, the pod
  pointer and the error;
* `upgrade`: the WebSocket upgrade, the connection pointer and the error;
* `monitorSize`: whether `t.MonitorSize` returns a non-nil queue;
* `safe t`: `some err` when `t.Safe` returns `err` without running its
  argument (the terminal could not be put in raw mode), `none` when it runs it;
* `newSPDYExecutor ns pod opts`: whether the executor is non-nil, and the
  error;
* `stream opts`: the error of `executor.Stream(opts)`;
* `parseRFC3339`: `kubeutil.ParseRFC3339`;
* `logStream ns pod opts`: `req.Stream()` on the log request, the reader and
  the error. -/
structure World where
  getPod : String → String → Option Pod × Option String
  upgrade : Option Conn × Option String
  monitorSize : Bool
  safe : TTY → Option String
  newSPDYExecutor : String → String → PodExecOptions → Bool × Option String
  stream : RemoteStreamOptions → Option String
  parseRFC3339 : String → Except String Time
  logStream : String → String → PodLogOptions → Option Reader × Option String

/-- A call that leaves the handler, in the order the handler makes them. -/
inductive Event where
  | httpError (error : String) (code : Nat)
  | getPod (ns name : String)
  | upgrade
  | newSPDYExecutor (ns pod : String) (opts : PodExecOptions)
  | stream (opts : RemoteStreamOptions)
  | writeControl (messageType : Int) (data : String)
  | logStream (ns pod : String) (opts : PodLogOptions)
  | readerClose
deriving DecidableEq, Repr

/-- Constant `http.StatusInternalServerError`. -/
def StatusInternalServerError : Nat := 500

/-- The statement `if err != nil { http.Error(w, err.Error(), 500) }`, which
does not return from the handler. -/
def reportError (err : Option String) : List Event :=
  match err with
  | some e => [Event.httpError e StatusInternalServerError]
  | none => []

/-- The call `conn.WriteControl(websocket.CloseMessage, []byte(data), ...)`:
the events it adds, and whether it panics (nil connection). -/
def writeClose (conn : Option Conn) (data : String) : List Event × Bool :=
  match conn with
  | none => ([], true)
  | some _ => ([Event.writeControl CloseMessage data], false)

/-- The statement `if err != nil { conn.WriteControl(websocket.CloseMessage,
[]byte(err.Error()), ...) }`: the events it adds, and whether it panics. -/
def closeOnError (conn : Option Conn) (err : Option String) : List Event × Bool :=
  match err with
  | some e => writeClose conn e
  | none => ([], false)

/-! ## The exec session -/

/-- The closure `fn` of `HandleExec`: the calls it makes and how it ends
(`ret err` is the error it returns). -/
def HandleExec.fn (world : World) (options : ExecOption) (containerName : String)
    (conn : Option Conn) (t : TTY) (sizeQueue : Bool) : List Event × Call (Option String) :=
  let execOption : PodExecOptions :=
    { Container := containerName
      Command := options.command
      Stdin := options.stdin
      Stdout := options.stdout
      Stderr := options.stderr
      TTY := options.tty }
  let executor := world.newSPDYExecutor options.nameSpace options.podName execOption
  let events := [Event.newSPDYExecutor options.nameSpace options.podName execOption]
  let closed := closeOnError conn executor.2
  if closed.2 then
    (events ++ closed.1, .panicked)
  else
    let option : RemoteStreamOptions :=
      { Stdin := some Stream.ioWrapper
        Stdout := some Stream.ioWrapper
        Stderr := some Stream.ioWrapper
        Tty := t.Raw
        TerminalSizeQueue := sizeQueue }
    let option := if option.Tty then { option with Stderr := none } else option
    if executor.1 then
      (events ++ closed.1 ++ [Event.stream option], .ret (world.stream option))
    else
      (events ++ closed.1, .panicked)

/-- Method `TTY.Safe(fn)` as the handler sees it: either it returns an error
of its own without running `fn`, or it runs `fn` and returns its result. -/
def TTY.Safe (world : World) (t : TTY) (fn : List Event × Call (Option String)) :
    List Event × Call (Option String) :=
  match world.safe t with
  | some err => ([], .ret (some err))
  | none => fn

/-- What a run of `HandleExec` leaves behind: the calls made, how the handler
ended, and the values of the locals `t` and `steamOptions` at the point where
`fn` is started (`none` when the handler stopped before). -/
structure ExecSession where
  events : List Event
  status : Call Unit
  t : Option TTY := none
  steamOptions : Option StreamOptions := none
deriving DecidableEq, Repr

/-- The value `steamOptions` that `HandleExec` builds from the parsed
request, before `setupTTY` runs on it. -/
def HandleExec.steamOptions (options : ExecOption) : StreamOptions :=
  { Namespace := options.nameSpace
    PodName := options.podName
    ContainerName := options.containerName
    Stdin := true
    TTY := options.tty
    In := some Stream.ioWrapper
    Out := some Stream.ioWrapper
    Err := some Stream.ioWrapper }

/-- Method `(*manager).HandleExec` of `main.go`. -/
def HandleExec (world : World) (values : Values) : ExecSession :=
  match getExecOption values with
  | none => { events := [], status := .panicked }
  | some options =>
    let found := world.getPod options.nameSpace options.podName
    let events := [Event.getPod options.nameSpace options.podName] ++ reportError found.2
    match found.1 with
    | none => { events := events, status := .panicked }
    | some pod =>
      let events := events ++
        (if pod.Phase = PodSucceeded ∨ pod.Phase = PodFailed then
          [Event.httpError
            ("cannot exec into a container in a completed pod; current phase is " ++ pod.Phase)
            StatusInternalServerError]
        else [])
      let resolved : Option String :=
        if options.containerName.length = 0 then
          pod.Containers.head?.map Container.Name
        else
          some options.containerName
      match resolved with
      | none => { events := events, status := .panicked }
      | some containerName =>
        let upgraded := world.upgrade
        let conn := upgraded.1
        let events := events ++ [Event.upgrade] ++ reportError upgraded.2
        let steamOptions := HandleExec.steamOptions options
        let t := steamOptions.setupTTY.1
        let steamOptions := steamOptions.setupTTY.2
        let sizeQueue := if t.Raw then world.monitorSize else false
        let steamOptions := if t.Raw then { steamOptions with Err := none } else steamOptions
        let ran := t.Safe world (HandleExec.fn world options containerName conn t sizeQueue)
        let closed := match ran.2 with
          | .ret err => closeOnError conn err
          | _ => ([], false)
        { events := events ++ ran.1 ++ closed.1
          status := match ran.2 with
            | .ret _ => if closed.2 then .panicked else .ret ()
            | .panicked => .panicked
            | .blocked => .blocked
          t := some t
          steamOptions := some steamOptions }

/-! ## The log session -/

/-- What a run of `HandleLog` leaves behind: the calls made, how the handler
ended, the reader that `req.Stream()` returned when it returned no error,
how `io.Copy` ended, and the client connection at the end. -/
structure LogSession where
  events : List Event
  status : Call Unit
  reader : Option Reader := none
  copied : Option (Call (Option String)) := none
  conn : Option Conn := none

/-- Method `(*manager).HandleLog` of `main.go`. -/
def HandleLog (world : World) (values : Values) : LogSession :=
  match generateLogOptions world.parseRFC3339 values with
  | none => { events := [], status := .panicked }
  | some (options, err) =>
    let events := reportError err
    let found := world.getPod options.NameSpace options.PodName
    let events := events ++ [Event.getPod options.NameSpace options.PodName] ++
      reportError found.2
    let resolved : Option String :=
      if options.Container.length = 0 then
        match found.1 with
        | none => none
        | some pod => pod.Containers.head?.map Container.Name
      else
        some options.Container
    match resolved with
    | none => { events := events, status := .panicked }
    | some containerName =>
      let upgraded := world.upgrade
      let conn := upgraded.1
      let events := events ++ [Event.upgrade] ++ reportError upgraded.2
      let ioWrapper : WebsocketIOWrapper := { Conn := conn }
      let podLogOption : PodLogOptions :=
        { Container := containerName
          Timestamps := options.Timestamps
          Follow := options.Follow
          SinceTime := options.SinceTime }
      let opened := world.logStream options.NameSpace options.PodName podLogOption
      let events := events ++ [Event.logStream options.NameSpace options.PodName podLogOption]
      match opened.2 with
      | some err =>
        let closed := closeOnError conn (some err)
        { events := events ++ closed.1
          status := if closed.2 then .panicked else .ret ()
          conn := conn }
      | none =>
        match opened.1 with
        | none => { events := events, status := .panicked, conn := conn }
        | some reader =>
          let copy := ioCopy ioWrapper 0 reader
          let closed := match copy.status with
            | .ret err => closeOnError copy.dst.Conn err
            | _ => ([], false)
          { events := events ++ closed.1 ++
              (match copy.status with
                | .blocked => []
                | _ => [Event.readerClose])
            status := match copy.status with
              | .ret _ => if closed.2 then .panicked else .ret ()
              | .panicked => .panicked
              | .blocked => .blocked
            reader := some reader
            copied := some copy.status
            conn := copy.dst.Conn }

/-! ## Predicates used in the statements -/

/-- The handler gets past pod lookup and container resolution: the options
parse, the cluster client returns a pod, and either a container is named in
the request or the pod declares one. -/
structure ExecResolved (world : World) (values : Values) (options : ExecOption)
    (pod : Pod) : Prop where
  parsed : getExecOption values = some options
  found : (world.getPod options.nameSpace options.podName).1 = some pod
  container : options.containerName.length ≠ 0 ∨ pod.Containers ≠ []

/-- The container name the handlers settle on. -/
def resolvedName (requested : String) (pod : Pod) : Option String :=
  if requested.length = 0 then pod.Containers.head?.map Container.Name else some requested

/-! ## A sample cluster

A world used to run the handlers on concrete requests: one running or
finished pod `nginx` in namespace `default` with the containers `web` and
`sidecar`, a WebSocket upgrade that succeeds, an executor that runs, a
timestamp parser that rejects what is not the one timestamp it knows, and a
log of the three bytes `hi\n`. -/

/-- The pod of the sample cluster, in the given phase. -/
def samplePod (phase : String) : Pod :=
  { Phase := phase, Containers := [⟨"web"⟩, ⟨"sidecar"⟩] }

/-- The sample cluster.  A lookup of any other pod returns an empty pod and
an error, as the typed client does. -/
def sampleWorld (phase : String) : World :=
  { getPod := fun ns name =>
      if ns = "default" ∧ name = "nginx" then (some (samplePod phase), none)
      else (some {}, some "pods not found")
    upgrade := (some {}, none)
    monitorSize := false
    safe := fun _ => none
    newSPDYExecutor := fun _ _ _ => (true, none)
    stream := fun _ => none
    parseRFC3339 := fun str =>
      if str = "2017-09-01T00:00:00Z" then .ok 1504224000
      else .error ("cannot parse " ++ str)
    logStream := fun _ _ _ => (some [([104, 105], none), ([10], some ReadErr.EOF)], none) }

/-- The query `pod=nginx&namespace=default&command=sh&stdin=false&tty=true`
of `/exec`. -/
def execQueryNoStdin : Values :=
  [("pod", ["nginx"]), ("namespace", ["default"]), ("command", ["sh"]),
   ("stdin", ["false"]), ("tty", ["true"])]

/-- The query `pod=nginx&namespace=default&command=sh&stdin=true&tty=true`
of `/exec`. -/
def execQueryTTY : Values :=
  [("pod", ["nginx"]), ("namespace", ["default"]), ("command", ["sh"]),
   ("stdin", ["true"]), ("tty", ["true"])]

/-- The options `getExecOption` parses from `execQueryTTY`. -/
def execOptionTTY : ExecOption :=
  { podName := "nginx", nameSpace := "default", command := ["sh"], stdin := true, tty := true }

/-- The query `pod=nginx&namespace=default&command=ls&stdout=true` of
`/exec`. -/
def execQueryPlain : Values :=
  [("pod", ["nginx"]), ("namespace", ["default"]), ("command", ["ls"]), ("stdout", ["true"])]

/-- The options `getExecOption` parses from `execQueryPlain`. -/
def execOptionPlain : ExecOption :=
  { podName := "nginx", nameSpace := "default", command := ["ls"], stdout := true }

/-- The query `pod=nginx&namespace=default&since=not-a-date` of `/log`. -/
def logQueryBadSince : Values :=
  [("pod", ["nginx"]), ("namespace", ["default"]), ("since", ["not-a-date"])]

/-- The query `pod=nginx&namespace=default&follow=true` of `/log`. -/
def logQueryFollow : Values :=
  [("pod", ["nginx"]), ("namespace", ["default"]), ("follow", ["true"])]

/-! ## Theorems: TTY negotiation -/

/-- C10: for every `StreamOptions` value `o`, `setupTTY` returns a state
that is raw exactly when `o.Stdin` and `o.TTY` are both set on entry; when
`o.Stdin` is unset it clears `o.In` and `o.TTY` and returns a state without
input, cooked, whatever `o.TTY` was; when `o.Stdin` is set and `o.TTY` is
not, it returns the cooked state over `o.In` and `o.Out` and leaves `o` as
it was. -/
theorem setupTTY_spec (o : StreamOptions) :
    (o.setupTTY.1.Raw = true ↔ (o.Stdin = true ∧ o.TTY = true)) ∧
    (o.Stdin = false →
      o.setupTTY.2 = { o with In := none, TTY := false } ∧
      o.setupTTY.1 = { In := none, Out := o.Out, Raw := false }) ∧
    (o.Stdin = true → o.TTY = false →
      o.setupTTY.1 = { In := o.In, Out := o.Out, Raw := false } ∧ o.setupTTY.2 = o) := by
  refine ⟨?_, ?_, ?_⟩
  · cases hs : o.Stdin <;> cases ht : o.TTY <;> cases ho : o.Out <;>
      simp [StreamOptions.setupTTY, hs, ht, ho]
  · intro hs
    simp [StreamOptions.setupTTY, hs]
  · intro hs ht
    simp [StreamOptions.setupTTY, hs, ht]

/-- Witness of `setupTTY_spec`: a request for a TTY without stdin, and a
request for stdin without a TTY. -/
theorem setupTTY_spec_witness :
    (StreamOptions.setupTTY ⟨"", "", "", false, true, false, some Stream.ioWrapper,
        some Stream.ioWrapper, none⟩).1 =
      { In := none, Out := some Stream.ioWrapper, Raw := false } ∧
    (StreamOptions.setupTTY ⟨"", "", "", true, false, false, some Stream.ioWrapper,
        some Stream.ioWrapper, none⟩).1 =
      { In := some Stream.ioWrapper, Out := some Stream.ioWrapper, Raw := false } :=
  ⟨((setupTTY_spec ⟨"", "", "", false, true, false, some Stream.ioWrapper,
        some Stream.ioWrapper, none⟩).2.1 rfl).2,
   ((setupTTY_spec ⟨"", "", "", true, false, false, some Stream.ioWrapper,
        some Stream.ioWrapper, none⟩).2.2 rfl rfl).1⟩

/-! ## Theorems: frame adapter -/

theorem copy_length (dst src : List Byte) : (copy dst src).1.length = dst.length := by
  simp only [copy, List.length_append, List.length_take, List.length_drop]
  omega

theorem copy_take (dst src : List Byte) :
    (copy dst src).1.take (min dst.length src.length) =
      src.take (min dst.length src.length) := by
  simp only [copy]
  rw [List.take_append_of_le_length (by simp)]
  simp

theorem copy_drop (dst src : List Byte) :
    (copy dst src).1.drop (min dst.length src.length) =
      dst.drop (min dst.length src.length) := by
  simp only [copy]
  rw [List.drop_append_of_le_length (by simp)]
  simp

/-- C8: when the next inbound message carries the payload `d`, `Read`
returns `n = min (len p) (len d)` and a nil error, the first `n` bytes of `p`
are the first `n` bytes of `d`, the rest of `p` is unchanged, and the
connection keeps nothing of `d`: the following `Read` is served from the
message after it.  When `ReadMessage` fails, `Read` returns 0 and that
error, and leaves `p` as it was. -/
theorem Read_spec (conn : Conn) (p : List Byte) (r : Except String (Int × List Byte))
    (rest : List (Except String (Int × List Byte))) (h : conn.inbound = r :: rest) :
    match r with
    | .ok (_, d) =>
      ∃ p1 : List Byte,
        WebsocketIOWrapper.Read { Conn := some conn } p =
          .ret ({ Conn := some { conn with inbound := rest } }, p1,
            min p.length d.length, none) ∧
        p1.length = p.length ∧
        p1.take (min p.length d.length) = d.take (min p.length d.length) ∧
        p1.drop (min p.length d.length) = p.drop (min p.length d.length) ∧
        ∀ (q : List Byte) (mt2 : Int) (d2 : List Byte)
          (rest2 : List (Except String (Int × List Byte))),
          rest = .ok (mt2, d2) :: rest2 →
          WebsocketIOWrapper.Read { Conn := some { conn with inbound := rest } } q =
            .ret ({ Conn := some { conn with inbound := rest2 } }, (copy q d2).1,
              min q.length d2.length, none)
    | .error err =>
      WebsocketIOWrapper.Read { Conn := some conn } p =
        .ret ({ Conn := some { conn with inbound := rest } }, p, 0, some err) := by
  cases r with
  | error err =>
    simp [WebsocketIOWrapper.Read, Conn.ReadMessage, h]
  | ok m =>
    obtain ⟨mt, d⟩ := m
    refine ⟨(copy p d).1, ?_, copy_length p d, copy_take p d, copy_drop p d, ?_⟩
    · simp [WebsocketIOWrapper.Read, Conn.ReadMessage, h, copy]
    · intro q mt2 d2 rest2 hrest
      simp [WebsocketIOWrapper.Read, Conn.ReadMessage, hrest, copy]

/-- Witness of `Read_spec`: a five-byte message read into a two-byte
buffer, followed by a one-byte message. -/
theorem Read_spec_witness :
    ∃ p1 : List Byte,
      WebsocketIOWrapper.Read
        { Conn := some { inbound := [.ok (1, [104, 101, 108, 108, 111]), .ok (1, [33])] } }
        [0, 0] =
        .ret ({ Conn := some { inbound := [.ok (1, [33])] } }, p1, 2, none) ∧
      p1 = [104, 101] :=
  have h := Read_spec { inbound := [.ok (1, [104, 101, 108, 108, 111]), .ok (1, [33])] }
    [0, 0] (.ok (1, [104, 101, 108, 108, 111])) [.ok (1, [33])] rfl
  h.elim fun p1 hp => ⟨p1, hp.1, by
    have h3 := hp.2.2.1
    have h4 := hp.2.1
    simp at h3 h4
    rw [← h3]
    exact (List.take_of_length_le (by omega)).symm⟩

/-! ## Theorems: query parsing -/

theorem ParseBool_error_value (str : String) (h : (ParseBool str).2 = true) :
    (ParseBool str).1 = false := by
  unfold ParseBool at h ⊢
  split_ifs at h ⊢
  rfl

theorem getExecOption_step_total (option : ExecOption) (k : String) (v : List String)
    (hv : v ≠ []) : ∃ option1, getExecOption.step option k v = some option1 := by
  obtain ⟨v0, vs, rfl⟩ := List.exists_cons_of_ne_nil hv
  unfold getExecOption.step
  split_ifs <;> simp

theorem getExecOption_loop_total (values : Values) (hv : ∀ kv ∈ values, kv.2 ≠ []) :
    ∀ option, ∃ option1, getExecOption.loop option values = some option1 := by
  induction values with
  | nil => intro option; exact ⟨option, rfl⟩
  | cons kv rest ih =>
    intro option
    obtain ⟨k, v⟩ := kv
    obtain ⟨o1, h1⟩ := getExecOption_step_total option k v (hv (k, v) (List.mem_cons_self _ _))
    obtain ⟨o2, h2⟩ := ih (fun x hx => hv x (List.mem_cons_of_mem _ hx)) o1
    exact ⟨o2, by simp [getExecOption.loop, h1, h2]⟩

theorem getExecOption_loop_keep (k : String) (P : ExecOption → Prop)
    (hkeep : ∀ o k1 v1 o1, k1 ≠ k → getExecOption.step o k1 v1 = some o1 → P o → P o1)
    (values : Values) (hk : k ∉ values.keys) :
    ∀ option option1, getExecOption.loop option values = some option1 → P option → P option1 := by
  induction values with
  | nil =>
    intro option option1 h hp
    simp [getExecOption.loop] at h
    exact h ▸ hp
  | cons kv rest ih =>
    intro option option1 h hp
    obtain ⟨k1, v1⟩ := kv
    simp only [Values.keys, List.map_cons, List.mem_cons, not_or] at hk
    simp only [getExecOption.loop] at h
    cases hs : getExecOption.step option k1 v1 with
    | none => simp [hs] at h
    | some o1 =>
      simp only [hs] at h
      exact ih hk.2 o1 option1 h (hkeep option k1 v1 o1 (fun e => hk.1 e.symm) hs hp)

theorem getExecOption_loop_set (k : String) (v : List String) (P : ExecOption → Prop)
    (hset : ∀ o o1, getExecOption.step o k v = some o1 → P o1)
    (hkeep : ∀ o k1 v1 o1, k1 ≠ k → getExecOption.step o k1 v1 = some o1 → P o → P o1)
    (values : Values) (hnd : values.keys.Nodup) (hmem : (k, v) ∈ values) :
    ∀ option option1, getExecOption.loop option values = some option1 → P option1 := by
  induction values with
  | nil => simp at hmem
  | cons kv rest ih =>
    intro option option1 h
    obtain ⟨k1, v1⟩ := kv
    simp only [Values.keys, List.map_cons, List.nodup_cons] at hnd
    simp only [getExecOption.loop] at h
    cases hs : getExecOption.step option k1 v1 with
    | none => simp [hs] at h
    | some o1 =>
      simp only [hs] at h
      rcases List.mem_cons.mp hmem with heq | hin
      · obtain ⟨rfl, rfl⟩ := Prod.mk.inj heq
        exact getExecOption_loop_keep k P hkeep rest hnd.1 o1 option1 h (hset option o1 hs)
      · exact ih hnd.2 hin o1 option1 h

/-- C5: for every query map, in every iteration order, `getExecOption`
returns an option set whose `command` is exactly the list of values stored
under the key `command`, and the empty list when the key is absent, whatever
other keys are present. -/
theorem getExecOption_command (values : Values) (hwf : values.WF) :
    ∃ option, getExecOption values = some option ∧
      (∀ v, ("command", v) ∈ values → option.command = v) ∧
      ("command" ∉ values.keys → option.command = []) := by
  obtain ⟨option, hopt⟩ := getExecOption_loop_total values hwf.2 {}
  have hkeep : ∀ (c : List String) (o : ExecOption) (k1 : String) (v1 : List String)
      (o1 : ExecOption), k1 ≠ "command" → getExecOption.step o k1 v1 = some o1 →
      o.command = c → o1.command = c := by
    intro c o k1 v1 o1 hne hs hp
    unfold getExecOption.step at hs
    split_ifs at hs <;> first
      | contradiction
      | (cases v1 <;> simp at hs <;> subst hs <;> exact hp)
  refine ⟨option, hopt, ?_, ?_⟩
  · intro v hmem
    refine getExecOption_loop_set "command" v (fun o => o.command = v) ?_ (hkeep v)
      values hwf.1 hmem {} option hopt
    intro o o1 hs
    simp [getExecOption.step] at hs
    subst hs
    rfl
  · intro habs
    exact getExecOption_loop_keep "command" (fun o => o.command = []) (hkeep [])
      values habs {} option hopt rfl

/-- Witness of `getExecOption_command`: the query
`tty=notabool&command=ls&command=-la&x=1`. -/
theorem getExecOption_command_witness :
    ∃ option, getExecOption [("tty", ["notabool"]), ("command", ["ls", "-la"]), ("x", ["1"])] =
        some option ∧ option.command = ["ls", "-la"] :=
  (getExecOption_command [("tty", ["notabool"]), ("command", ["ls", "-la"]), ("x", ["1"])]
    ⟨by decide, by decide⟩).elim
    fun option h => ⟨option, h.1, h.2.1 ["ls", "-la"] (by decide)⟩

theorem generateLogOptions_step_total (parse : String → Except String Time)
    (options : LogOptions) (k : String) (v : List String) (hv : v ≠ [])
    (hsince : k = "since" → ∀ v0 vs, v = v0 :: vs → ∃ t, parse v0 = .ok t) :
    ∃ options1, generateLogOptions.step parse options k v = some (options1, none) := by
  obtain ⟨v0, vs, rfl⟩ := List.exists_cons_of_ne_nil hv
  unfold generateLogOptions.step
  split_ifs with h1 h2 h3 h4 h5 h6 <;> try simp
  obtain ⟨t, ht⟩ := hsince h6 v0 vs rfl
  simp [ht]

theorem generateLogOptions_loop_total (parse : String → Except String Time)
    (values : Values) (hv : ∀ kv ∈ values, kv.2 ≠ [])
    (hsince : ∀ v0 vs, ("since", v0 :: vs) ∈ values → ∃ t, parse v0 = .ok t) :
    ∀ options, ∃ options1, generateLogOptions.loop parse options values =
      some (options1, none) := by
  induction values with
  | nil => intro options; exact ⟨options, rfl⟩
  | cons kv rest ih =>
    intro options
    obtain ⟨k, v⟩ := kv
    obtain ⟨o1, h1⟩ := generateLogOptions_step_total parse options k v
      (hv (k, v) (List.mem_cons_self _ _))
      (fun hk v0 vs hvv => hsince v0 vs (by rw [hk, hvv]; exact List.mem_cons_self _ _))
    obtain ⟨o2, h2⟩ := ih (fun x hx => hv x (List.mem_cons_of_mem _ hx))
      (fun v0 vs hm => hsince v0 vs (List.mem_cons_of_mem _ hm)) o1
    exact ⟨o2, by simp [generateLogOptions.loop, h1, h2]⟩

theorem generateLogOptions_loop_keep (parse : String → Except String Time) (k : String)
    (P : LogOptions → Prop)
    (hkeep : ∀ o k1 v1 o1 e, k1 ≠ k → generateLogOptions.step parse o k1 v1 = some (o1, e) →
      P o → P o1)
    (values : Values) (hk : k ∉ values.keys) :
    ∀ options options1 e, generateLogOptions.loop parse options values = some (options1, e) →
      P options → P options1 := by
  induction values with
  | nil =>
    intro options options1 e h hp
    simp [generateLogOptions.loop] at h
    exact h.1 ▸ hp
  | cons kv rest ih =>
    intro options options1 e h hp
    obtain ⟨k1, v1⟩ := kv
    simp only [Values.keys, List.map_cons, List.mem_cons, not_or] at hk
    simp only [generateLogOptions.loop] at h
    cases hs : generateLogOptions.step parse options k1 v1 with
    | none => simp [hs] at h
    | some r =>
      obtain ⟨o1, e1⟩ := r
      have hp1 := hkeep options k1 v1 o1 e1 (fun e => hk.1 e.symm) hs hp
      cases e1 with
      | some err =>
        simp [hs] at h
        exact h.1 ▸ hp1
      | none =>
        simp only [hs] at h
        exact ih hk.2 o1 options1 e h hp1

theorem generateLogOptions_loop_set (parse : String → Except String Time) (k : String)
    (v : List String) (P : LogOptions → Prop)
    (hset : ∀ o o1, generateLogOptions.step parse o k v = some (o1, none) → P o1)
    (hkeep : ∀ o k1 v1 o1 e, k1 ≠ k → generateLogOptions.step parse o k1 v1 = some (o1, e) →
      P o → P o1)
    (values : Values) (hnd : values.keys.Nodup) (hmem : (k, v) ∈ values) :
    ∀ options options1, generateLogOptions.loop parse options values = some (options1, none) →
      P options1 := by
  induction values with
  | nil => simp at hmem
  | cons kv rest ih =>
    intro options options1 h
    obtain ⟨k1, v1⟩ := kv
    simp only [Values.keys, List.map_cons, List.nodup_cons] at hnd
    simp only [generateLogOptions.loop] at h
    cases hs : generateLogOptions.step parse options k1 v1 with
    | none => simp [hs] at h
    | some r =>
      obtain ⟨o1, e1⟩ := r
      cases e1 with
      | some err => simp [hs] at h
      | none =>
        simp only [hs] at h
        rcases List.mem_cons.mp hmem with heq | hin
        · obtain ⟨rfl, rfl⟩ := Prod.mk.inj heq
          exact generateLogOptions_loop_keep parse k P hkeep rest hnd.1 o1 options1 none h
            (hset options o1 hs)
        · exact ih hnd.2 hin o1 options1 h

theorem getExecOption_tty_of_mem (values : Values) (hnd : values.keys.Nodup)
    (v0 : String) (vs : List String) (hmem : ("tty", v0 :: vs) ∈ values)
    (option : ExecOption) (h : getExecOption values = some option) :
    option.tty = (ParseBool v0).1 := by
  refine getExecOption_loop_set "tty" (v0 :: vs) (fun o => o.tty = (ParseBool v0).1) ?_ ?_
    values hnd hmem {} option h
  · intro o o1 hs
    simp [getExecOption.step] at hs
    subst hs
    rfl
  · intro o k1 v1 o1 hne hs hp
    unfold getExecOption.step at hs
    split_ifs at hs <;> first
      | contradiction
      | (cases v1 <;> simp at hs <;> subst hs <;> exact hp)

theorem getExecOption_stdin_of_mem (values : Values) (hnd : values.keys.Nodup)
    (v0 : String) (vs : List String) (hmem : ("stdin", v0 :: vs) ∈ values)
    (option : ExecOption) (h : getExecOption values = some option) :
    option.stdin = (ParseBool v0).1 := by
  refine getExecOption_loop_set "stdin" (v0 :: vs) (fun o => o.stdin = (ParseBool v0).1) ?_ ?_
    values hnd hmem {} option h
  · intro o o1 hs
    simp [getExecOption.step] at hs
    subst hs
    rfl
  · intro o k1 v1 o1 hne hs hp
    unfold getExecOption.step at hs
    split_ifs at hs <;> first
      | contradiction
      | (cases v1 <;> simp at hs <;> subst hs <;> exact hp)

theorem getExecOption_stdout_of_mem (values : Values) (hnd : values.keys.Nodup)
    (v0 : String) (vs : List String) (hmem : ("stdout", v0 :: vs) ∈ values)
    (option : ExecOption) (h : getExecOption values = some option) :
    option.stdout = (ParseBool v0).1 := by
  refine getExecOption_loop_set "stdout" (v0 :: vs) (fun o => o.stdout = (ParseBool v0).1) ?_ ?_
    values hnd hmem {} option h
  · intro o o1 hs
    simp [getExecOption.step] at hs
    subst hs
    rfl
  · intro o k1 v1 o1 hne hs hp
    unfold getExecOption.step at hs
    split_ifs at hs <;> first
      | contradiction
      | (cases v1 <;> simp at hs <;> subst hs <;> exact hp)

theorem getExecOption_stderr_of_mem (values : Values) (hnd : values.keys.Nodup)
    (v0 : String) (vs : List String) (hmem : ("stderr", v0 :: vs) ∈ values)
    (option : ExecOption) (h : getExecOption values = some option) :
    option.stderr = (ParseBool v0).1 := by
  refine getExecOption_loop_set "stderr" (v0 :: vs) (fun o => o.stderr = (ParseBool v0).1) ?_ ?_
    values hnd hmem {} option h
  · intro o o1 hs
    simp [getExecOption.step] at hs
    subst hs
    rfl
  · intro o k1 v1 o1 hne hs hp
    unfold getExecOption.step at hs
    split_ifs at hs <;> first
      | contradiction
      | (cases v1 <;> simp at hs <;> subst hs <;> exact hp)

theorem generateLogOptions_Timestamps_of_mem (parse : String → Except String Time)
    (values : Values) (hnd : values.keys.Nodup)
    (v0 : String) (vs : List String) (hmem : ("timestamp", v0 :: vs) ∈ values)
    (options : LogOptions) (h : generateLogOptions parse values = some (options, none)) :
    options.Timestamps = (ParseBool v0).1 := by
  refine generateLogOptions_loop_set parse "timestamp" (v0 :: vs)
    (fun o => o.Timestamps = (ParseBool v0).1) ?_ ?_ values hnd hmem {} options h
  · intro o o1 hs
    simp [generateLogOptions.step] at hs
    rw [← hs]
  · intro o k1 v1 o1 e hne hs hp
    unfold generateLogOptions.step at hs
    split_ifs at hs <;> first
      | contradiction
      | (cases v1 <;> simp at hs <;> first
          | (rw [← hs.1]; exact hp)
          | (split at hs <;> simp at hs <;> rw [← hs.1] <;> exact hp))

theorem generateLogOptions_Follow_of_mem (parse : String → Except String Time)
    (values : Values) (hnd : values.keys.Nodup)
    (v0 : String) (vs : List String) (hmem : ("follow", v0 :: vs) ∈ values)
    (options : LogOptions) (h : generateLogOptions parse values = some (options, none)) :
    options.Follow = (ParseBool v0).1 := by
  refine generateLogOptions_loop_set parse "follow" (v0 :: vs)
    (fun o => o.Follow = (ParseBool v0).1) ?_ ?_ values hnd hmem {} options h
  · intro o o1 hs
    simp [generateLogOptions.step] at hs
    rw [← hs]
  · intro o k1 v1 o1 e hne hs hp
    unfold generateLogOptions.step at hs
    split_ifs at hs <;> first
      | contradiction
      | (cases v1 <;> simp at hs <;> first
          | (rw [← hs.1]; exact hp)
          | (split at hs <;> simp at hs <;> rw [← hs.1] <;> exact hp))

/-- C6: when a boolean query field carries a first value that is not a
boolean literal, the parsed field is false and parsing does not fail:
`getExecOption` returns its options (it has no error result), and
`generateLogOptions` returns its options with a nil error whenever `since`
is absent or parses. -/
theorem bool_fields_permissive (parse : String → Except String Time) (values : Values)
    (hwf : values.WF) (k v0 : String) (vs : List String)
    (hmem : (k, v0 :: vs) ∈ values) (hbad : (ParseBool v0).2 = true) :
    (∃ option, getExecOption values = some option ∧
      (k = "tty" → option.tty = false) ∧ (k = "stdin" → option.stdin = false) ∧
      (k = "stdout" → option.stdout = false) ∧ (k = "stderr" → option.stderr = false)) ∧
    ((∀ s ss, ("since", s :: ss) ∈ values → ∃ t, parse s = .ok t) →
      ∃ options, generateLogOptions parse values = some (options, none) ∧
        (k = "timestamp" → options.Timestamps = false) ∧
        (k = "follow" → options.Follow = false)) := by
  have hval := ParseBool_error_value v0 hbad
  constructor
  · obtain ⟨option, hopt⟩ := getExecOption_loop_total values hwf.2 {}
    refine ⟨option, hopt, ?_, ?_, ?_, ?_⟩ <;> intro hk <;> subst hk
    · rw [getExecOption_tty_of_mem values hwf.1 v0 vs hmem option hopt, hval]
    · rw [getExecOption_stdin_of_mem values hwf.1 v0 vs hmem option hopt, hval]
    · rw [getExecOption_stdout_of_mem values hwf.1 v0 vs hmem option hopt, hval]
    · rw [getExecOption_stderr_of_mem values hwf.1 v0 vs hmem option hopt, hval]
  · intro hsince
    obtain ⟨options, hopt⟩ := generateLogOptions_loop_total parse values hwf.2 hsince {}
    refine ⟨options, hopt, ?_, ?_⟩ <;> intro hk <;> subst hk
    · rw [generateLogOptions_Timestamps_of_mem parse values hwf.1 v0 vs hmem options hopt, hval]
    · rw [generateLogOptions_Follow_of_mem parse values hwf.1 v0 vs hmem options hopt, hval]

/-- Witness of `bool_fields_permissive`: the query `tty=notabool&pod=p`. -/
theorem bool_fields_permissive_witness :
    (∃ option, getExecOption [("tty", ["notabool"]), ("pod", ["p"])] = some option ∧
      option.tty = false) ∧
    (∃ options, generateLogOptions (fun _ => .ok 0) [("tty", ["notabool"]), ("pod", ["p"])] =
      some (options, none)) :=
  have h := bool_fields_permissive (fun _ => .ok 0) [("tty", ["notabool"]), ("pod", ["p"])]
    ⟨by decide, by decide⟩ "tty" "notabool" [] (by decide) (by decide)
  ⟨h.1.elim fun option ho => ⟨option, ho.1, ho.2.1 rfl⟩,
   (h.2 (fun _ _ _ => ⟨0, rfl⟩)).elim fun options ho => ⟨options, ho.1⟩⟩

/-! ## Theorems: the exec session -/

theorem ExecResolved_name {world : World} {values : Values} {options : ExecOption}
    {pod : Pod} (h : ExecResolved world values options pod) :
    ∃ name, resolvedName options.containerName pod = some name := by
  unfold resolvedName
  by_cases hl : options.containerName.length = 0
  · rcases h.container with hc | hc
    · exact absurd hl hc
    · obtain ⟨c, cs, hcs⟩ := List.exists_cons_of_ne_nil hc
      exact ⟨c.Name, by simp [hl, hcs]⟩
  · exact ⟨options.containerName, by simp [hl]⟩

theorem HandleExec_t {world : World} {values : Values} {options : ExecOption}
    {pod : Pod} (h : ExecResolved world values options pod) :
    (HandleExec world values).t = some (HandleExec.steamOptions options).setupTTY.1 := by
  obtain ⟨name, hname⟩ := ExecResolved_name h
  unfold resolvedName at hname
  simp only [HandleExec, h.parsed, h.found, hname]

theorem closeOnError_events (conn : Option Conn) (err : Option String) (e : Event)
    (h : e ∈ (closeOnError conn err).1) : ∃ data, e = Event.writeControl CloseMessage data := by
  unfold closeOnError writeClose at h
  cases err <;> cases conn <;> simp at h
  exact ⟨_, h⟩

theorem reportError_events (err : Option String) (e : Event) (h : e ∈ reportError err) :
    ∃ msg, e = Event.httpError msg StatusInternalServerError := by
  unfold reportError at h
  cases err <;> simp at h
  exact ⟨_, h⟩

/-- The stream options `fn` hands to `executor.Stream`. -/
theorem HandleExec_fn_stream (world : World) (options : ExecOption) (name : String)
    (conn : Option Conn) (t : TTY) (sizeQueue : Bool) (opt : RemoteStreamOptions)
    (h : Event.stream opt ∈ (HandleExec.fn world options name conn t sizeQueue).1) :
    opt = { Stdin := some Stream.ioWrapper, Stdout := some Stream.ioWrapper,
            Stderr := if t.Raw then none else some Stream.ioWrapper,
            Tty := t.Raw, TerminalSizeQueue := sizeQueue } := by
  have hclose : ∀ err, Event.stream opt ∉ (closeOnError conn err).1 := by
    intro err hm
    obtain ⟨d, hd⟩ := closeOnError_events _ _ _ hm
    cases hd
  unfold HandleExec.fn at h
  by_cases h1 : (closeOnError conn (world.newSPDYExecutor options.nameSpace options.podName
      { Container := name, Command := options.command, Stdin := options.stdin,
        Stdout := options.stdout, Stderr := options.stderr, TTY := options.tty }).2).2 = true
  · simp [h1, hclose] at h
  · by_cases h2 : (world.newSPDYExecutor options.nameSpace options.podName
      { Container := name, Command := options.command, Stdin := options.stdin,
        Stdout := options.stdout, Stderr := options.stderr, TTY := options.tty }).1 = true
    · cases hR : t.Raw <;> simp [h1, h2, hclose, hR] at h ⊢ <;> exact h
    · simp [h1, h2, hclose] at h

theorem TTY_Safe_events (world : World) (t : TTY) (fn : List Event × Call (Option String))
    (e : Event) (h : e ∈ (t.Safe world fn).1) : e ∈ fn.1 := by
  unfold TTY.Safe at h
  split at h
  · simp at h
  · exact h

/-- The events of a session that got past container resolution: the lookup
and upgrade calls, then what `t.Safe(fn)` did, then the closing frame. -/
theorem HandleExec_events {world : World} {values : Values} {options : ExecOption}
    {pod : Pod} (h : ExecResolved world values options pod) (e : Event)
    (hmem : e ∈ (HandleExec world values).events) :
    (e = Event.getPod options.nameSpace options.podName ∨ e = Event.upgrade ∨
      (∃ msg, e = Event.httpError msg StatusInternalServerError) ∨
      (∃ data, e = Event.writeControl CloseMessage data)) ∨
    ∃ name, resolvedName options.containerName pod = some name ∧
      e ∈ (HandleExec.fn world options name world.upgrade.1
        (HandleExec.steamOptions options).setupTTY.1
        (if (HandleExec.steamOptions options).setupTTY.1.Raw then world.monitorSize
          else false)).1 := by
  obtain ⟨name, hname⟩ := ExecResolved_name h
  have hname1 := hname
  unfold resolvedName at hname
  simp only [HandleExec, h.parsed, h.found, hname, List.mem_append, List.mem_singleton,
    List.mem_cons] at hmem
  rcases hmem with ((((hm | hm) | hm) | hm) | hm) | hm
  · rcases hm with (hm | hm) | hm
    · exact Or.inl (Or.inl hm)
    · simp at hm
    · exact Or.inl (Or.inr (Or.inr (Or.inl (reportError_events _ _ hm))))
  · split_ifs at hm
    · simp only [List.mem_singleton] at hm
      exact Or.inl (Or.inr (Or.inr (Or.inl ⟨_, hm⟩)))
    · simp at hm
  · rcases hm with hm | hm
    · exact Or.inl (Or.inr (Or.inl hm))
    · simp at hm
  · exact Or.inl (Or.inr (Or.inr (Or.inl (reportError_events _ _ hm))))
  · exact Or.inr ⟨name, hname1, TTY_Safe_events _ _ _ _ hm⟩
  · split at hm
    · exact Or.inl (Or.inr (Or.inr (Or.inr (closeOnError_events _ _ _ hm))))
    · simp at hm

/-- With a session that got past container resolution, everything `fn`
does is part of the session once `t.Safe` lets `fn` run. -/
theorem HandleExec_fn_ran {world : World} {values : Values} {options : ExecOption}
    {pod : Pod} (h : ExecResolved world values options pod) (name : String)
    (hname : resolvedName options.containerName pod = some name)
    (hsafe : world.safe (HandleExec.steamOptions options).setupTTY.1 = none) (e : Event)
    (hmem : e ∈ (HandleExec.fn world options name world.upgrade.1
        (HandleExec.steamOptions options).setupTTY.1
        (if (HandleExec.steamOptions options).setupTTY.1.Raw then world.monitorSize
          else false)).1) :
    e ∈ (HandleExec world values).events := by
  unfold resolvedName at hname
  simp only [HandleExec, h.parsed, h.found, hname, List.mem_append]
  refine Or.inl (Or.inr ?_)
  simp only [TTY.Safe, hsafe]
  exact hmem

theorem HandleExec_fn_executor (world : World) (options : ExecOption) (name : String)
    (conn : Option Conn) (t : TTY) (sizeQueue : Bool) :
    Event.newSPDYExecutor options.nameSpace options.podName
      { Container := name, Command := options.command, Stdin := options.stdin,
        Stdout := options.stdout, Stderr := options.stderr, TTY := options.tty } ∈
      (HandleExec.fn world options name conn t sizeQueue).1 ∧
    ∀ ns p eo, Event.newSPDYExecutor ns p eo ∈
        (HandleExec.fn world options name conn t sizeQueue).1 → eo.Container = name := by
  have hclose : ∀ ns p eo err,
      Event.newSPDYExecutor ns p eo ∉ (closeOnError conn err).1 := by
    intro ns p eo err hm
    obtain ⟨d, hd⟩ := closeOnError_events _ _ _ hm
    cases hd
  unfold HandleExec.fn
  constructor
  · simp only
    split_ifs <;> simp
  · intro ns p eo hm
    simp only at hm
    split_ifs at hm <;> simp [hclose] at hm <;> rw [hm.2.2]

theorem HandleExec_fn_streams (world : World) (options : ExecOption) (name : String)
    (conn : Option Conn) (t : TTY) (sizeQueue : Bool)
    (hexec : ∀ ns p eo, world.newSPDYExecutor ns p eo = (true, none)) :
    ∃ opt, Event.stream opt ∈ (HandleExec.fn world options name conn t sizeQueue).1 := by
  unfold HandleExec.fn
  simp only [hexec, closeOnError]
  exact ⟨_, by simp; rfl⟩

theorem HandleExec_steamOptions {world : World} {values : Values} {options : ExecOption}
    {pod : Pod} (h : ExecResolved world values options pod) :
    (HandleExec world values).steamOptions =
      some (if (HandleExec.steamOptions options).setupTTY.1.Raw
        then { (HandleExec.steamOptions options).setupTTY.2 with Err := none }
        else (HandleExec.steamOptions options).setupTTY.2) := by
  obtain ⟨name, hname⟩ := ExecResolved_name h
  unfold resolvedName at hname
  simp only [HandleExec, h.parsed, h.found, hname]

theorem HandleExec_steamOptions_raw (options : ExecOption) :
    (HandleExec.steamOptions options).setupTTY.1.Raw = options.tty := by
  cases ht : options.tty <;> simp [HandleExec.steamOptions, StreamOptions.setupTTY, ht]

theorem HandleExec_steamOptions_err (options : ExecOption) :
    (HandleExec.steamOptions options).setupTTY.2.Err = some Stream.ioWrapper := by
  cases ht : options.tty <;> simp [HandleExec.steamOptions, StreamOptions.setupTTY, ht]

/-- C2: in a session that got past container resolution, when the request
asks for stdin and a TTY the state `t` is raw, `HandleExec` clears the `Err`
sink of its stream options, and every call of `executor.Stream` gets
`Tty = true` and `Stderr = nil`; when `t` is not raw, `Err` and `Stderr` stay
attached to the WebSocket wrapper. -/
theorem HandleExec_stderr_merge (world : World) (values : Values) (options : ExecOption)
    (pod : Pod) (h : ExecResolved world values options pod) :
    (options.stdin = true → options.tty = true →
      ∃ t so, (HandleExec world values).t = some t ∧ t.Raw = true ∧
        (HandleExec world values).steamOptions = some so ∧ so.Err = none ∧
        ∀ opt, Event.stream opt ∈ (HandleExec world values).events →
          opt.Tty = true ∧ opt.Stderr = none) ∧
    (∀ t, (HandleExec world values).t = some t → t.Raw = false →
      (∃ so, (HandleExec world values).steamOptions = some so ∧
        so.Err = some Stream.ioWrapper) ∧
      ∀ opt, Event.stream opt ∈ (HandleExec world values).events →
        opt.Tty = false ∧ opt.Stderr = some Stream.ioWrapper) ∧
    (world.safe (HandleExec.steamOptions options).setupTTY.1 = none →
      (∀ ns p eo, world.newSPDYExecutor ns p eo = (true, none)) →
      ∃ opt, Event.stream opt ∈ (HandleExec world values).events) := by
  have hraw := HandleExec_steamOptions_raw options
  have hstream : ∀ opt, Event.stream opt ∈ (HandleExec world values).events →
      opt.Tty = options.tty ∧
      opt.Stderr = if options.tty then none else some Stream.ioWrapper := by
    intro opt hm
    rcases HandleExec_events h _ hm with hpre | ⟨name, _, hfn⟩
    · rcases hpre with hp | hp | ⟨_, hp⟩ | ⟨_, hp⟩ <;> cases hp
    · have := HandleExec_fn_stream _ _ _ _ _ _ _ hfn
      rw [hraw] at this
      subst this
      exact ⟨rfl, rfl⟩
  refine ⟨?_, ?_, ?_⟩
  · intro _ ht
    refine ⟨_, _, HandleExec_t h, by rw [hraw, ht], HandleExec_steamOptions h, ?_, ?_⟩
    · simp [hraw, ht]
    · intro opt hm
      have := hstream opt hm
      simpa [ht] using this
  · intro t ht hcooked
    rw [HandleExec_t h] at ht
    cases ht
    rw [hraw] at hcooked
    refine ⟨⟨_, HandleExec_steamOptions h, ?_⟩, ?_⟩
    · simp [hraw, hcooked, HandleExec_steamOptions_err]
    · intro opt hm
      have := hstream opt hm
      simpa [hcooked] using this
  · intro hsafe hexec
    obtain ⟨name, hname⟩ := ExecResolved_name h
    obtain ⟨opt, hopt⟩ := HandleExec_fn_streams world options name world.upgrade.1
      (HandleExec.steamOptions options).setupTTY.1
      (if (HandleExec.steamOptions options).setupTTY.1.Raw then world.monitorSize else false)
      hexec
    exact ⟨opt, HandleExec_fn_ran h name hname hsafe _ hopt⟩

/-- Witness of `HandleExec_stderr_merge`: an interactive shell in the sample
cluster. -/
theorem HandleExec_stderr_merge_witness :
    (∃ t so, (HandleExec (sampleWorld "Running") execQueryTTY).t = some t ∧ t.Raw = true ∧
      (HandleExec (sampleWorld "Running") execQueryTTY).steamOptions = some so ∧
      so.Err = none ∧
      ∀ opt, Event.stream opt ∈ (HandleExec (sampleWorld "Running") execQueryTTY).events →
        opt.Tty = true ∧ opt.Stderr = none) ∧
    ∃ opt, Event.stream opt ∈ (HandleExec (sampleWorld "Running") execQueryTTY).events :=
  have h := HandleExec_stderr_merge (sampleWorld "Running") execQueryTTY execOptionTTY
    (samplePod "Running") ⟨by decide, by decide, by decide⟩
  ⟨h.1 rfl rfl, h.2.2 rfl (fun _ _ _ => rfl)⟩

/-! ## Theorems: the log session -/

theorem string_length_eq_zero_iff (s : String) : s.length = 0 ↔ s = "" := by
  constructor
  · intro h
    cases s with
    | mk data =>
      have : data = [] := List.length_eq_zero.mp h
      subst this
      rfl
  · intro h
    subst h
    rfl

/-- The `req.Stream()` call of a log session whose container is resolved to
`name`: it is made, once, with `name` as the container. -/
theorem HandleLog_logStream (world : World) (values : Values) (options : LogOptions)
    (err : Option String) (name : String)
    (hgen : generateLogOptions world.parseRFC3339 values = some (options, err))
    (hname : (if options.Container.length = 0 then
        match (world.getPod options.NameSpace options.PodName).1 with
        | none => none
        | some pod => pod.Containers.head?.map Container.Name
      else some options.Container) = some name) (ns p : String) (lo : PodLogOptions) :
    Event.logStream ns p lo ∈ (HandleLog world values).events ↔
      (ns = options.NameSpace ∧ p = options.PodName ∧
        lo = { Container := name, Timestamps := options.Timestamps,
               Follow := options.Follow, SinceTime := options.SinceTime }) := by
  have hreport : ∀ e, Event.logStream ns p lo ∉ reportError e := by
    intro e hm
    obtain ⟨_, hd⟩ := reportError_events _ _ hm
    cases hd
  have hclose : ∀ conn e, Event.logStream ns p lo ∉ (closeOnError conn e).1 := by
    intro conn e hm
    obtain ⟨_, hd⟩ := closeOnError_events _ _ _ hm
    cases hd
  simp only [HandleLog, hgen, hname]
  split
  · simp [hreport, hclose]
  · split
    · simp [hreport]
    · simp only [List.mem_append, List.mem_cons, List.mem_singleton, hreport, false_or,
        or_false, reduceCtorEq, List.not_mem_nil, Event.logStream.injEq]
      constructor
      · rintro ((h | h) | h)
        · exact h
        · split at h
          · exact absurd h (hclose _ _)
          · simp at h
        · split at h <;> simp at h
      · intro h
        exact Or.inl (Or.inl h)

/-- C7: for a pod that the cluster client returns and that declares at
least one container, the container named in the remote invocation
(`PodExecOptions.Container` in `HandleExec`, `PodLogOptions.Container` in
`HandleLog`) is the first declared container when the request names none, and
the requested name otherwise.  The exec invocation is built whenever `t.Safe`
runs `fn`; the log invocation is always built. -/
theorem container_default (world : World) (values : Values) (pod : Pod)
    (c : Container) (cs : List Container) (hc : pod.Containers = c :: cs) :
    (∀ options, getExecOption values = some options →
      (world.getPod options.nameSpace options.podName).1 = some pod →
      (∀ ns p eo, Event.newSPDYExecutor ns p eo ∈ (HandleExec world values).events →
        eo.Container = if options.containerName = "" then c.Name
          else options.containerName) ∧
      (world.safe (HandleExec.steamOptions options).setupTTY.1 = none →
        ∃ eo, Event.newSPDYExecutor options.nameSpace options.podName eo ∈
            (HandleExec world values).events ∧
          eo.Container = if options.containerName = "" then c.Name
            else options.containerName)) ∧
    (∀ options err, generateLogOptions world.parseRFC3339 values = some (options, err) →
      (world.getPod options.NameSpace options.PodName).1 = some pod →
      ∀ ns p lo, Event.logStream ns p lo ∈ (HandleLog world values).events ↔
        (ns = options.NameSpace ∧ p = options.PodName ∧
          lo = { Container := if options.Container = "" then c.Name else options.Container,
                 Timestamps := options.Timestamps, Follow := options.Follow,
                 SinceTime := options.SinceTime })) := by
  constructor
  · intro options hopt hpod
    have hres : ExecResolved world values options pod :=
      ⟨hopt, hpod, Or.inr (by rw [hc]; exact List.cons_ne_nil _ _)⟩
    have hname : resolvedName options.containerName pod =
        some (if options.containerName = "" then c.Name else options.containerName) := by
      unfold resolvedName
      by_cases he : options.containerName = ""
      · simp [he, hc]
      · have : options.containerName.length ≠ 0 :=
          fun hl => he ((string_length_eq_zero_iff _).mp hl)
        simp [he, this]
    constructor
    · intro ns p eo hm
      rcases HandleExec_events hres _ hm with hpre | ⟨name, hn, hfn⟩
      · rcases hpre with hp | hp | ⟨_, hp⟩ | ⟨_, hp⟩ <;> cases hp
      · rw [hname] at hn
        cases hn
        exact (HandleExec_fn_executor _ _ _ _ _ _).2 ns p eo hfn
    · intro hsafe
      exact ⟨_, HandleExec_fn_ran hres _ hname hsafe _ (HandleExec_fn_executor _ _ _ _ _ _).1,
        rfl⟩
  · intro options err hgen hpod ns p lo
    refine HandleLog_logStream world values options err _ hgen ?_ ns p lo
    by_cases he : options.Container = ""
    · simp [he, hpod, hc]
    · have : options.Container.length ≠ 0 :=
        fun hl => he ((string_length_eq_zero_iff _).mp hl)
      simp [he, this]

theorem Conn_WriteMessage_written (c : Conn) (messageType : Int) (data : List Byte) :
    (c.WriteMessage messageType data).1.written =
      c.written ++ [⟨messageType, data, (c.WriteMessage messageType data).2⟩] := by
  unfold Conn.WriteMessage
  cases c.writeErrs <;> rfl

/-- What `io.Copy` sends over a live connection: text frames only, whose
payloads that went out spell a leading part of the reader's bytes, and all of
them when the copy returns a nil error. -/
theorem ioCopy_sent (reader : Reader) : ∀ (c : Conn) (written : Nat),
    ∃ frames, writtenOn (ioCopy { Conn := some c } written reader).dst.Conn =
        c.written ++ frames ∧
      (∀ f ∈ frames, f.messageType = TextMessage) ∧
      sentText frames <+: produced reader ∧
      ((ioCopy { Conn := some c } written reader).status = .ret none →
        sentText frames = produced reader) := by
  induction reader with
  | nil =>
    intro c written
    exact ⟨[], by simp [ioCopy, writtenOn], by simp, by simp [sentText], by simp [ioCopy]⟩
  | cons r src ih =>
    intro c written
    obtain ⟨buf, er⟩ := r
    by_cases hbuf : 0 < buf.length
    · cases hw : (c.WriteMessage TextMessage buf).2 with
      | some ew =>
        refine ⟨[⟨TextMessage, buf, some ew⟩], ?_, by simp, ?_, ?_⟩
        · simp [ioCopy, hbuf, WebsocketIOWrapper.Write, hw, writtenOn,
            Conn_WriteMessage_written]
        · simp [sentText]
        · simp [ioCopy, hbuf, WebsocketIOWrapper.Write, hw]
      | none =>
        cases er with
        | some e =>
          refine ⟨[⟨TextMessage, buf, none⟩], ?_, by simp, ?_, ?_⟩
          · cases e <;> simp [ioCopy, hbuf, WebsocketIOWrapper.Write, hw, writtenOn,
              Conn_WriteMessage_written]
          · simp [sentText, produced]
          · intro _
            simp [sentText, produced]
        | none =>
          obtain ⟨frames, h1, h2, h3, h4⟩ := ih (c.WriteMessage TextMessage buf).1
            (written + buf.length)
          refine ⟨⟨TextMessage, buf, none⟩ :: frames, ?_, ?_, ?_, ?_⟩
          · simp only [ioCopy, hbuf, WebsocketIOWrapper.Write, hw]
            simp only [ne_eq, not_true_eq_false, if_false, if_true]
            rw [h1, Conn_WriteMessage_written, hw]
            simp
          · intro f hf
            rcases List.mem_cons.mp hf with hf | hf
            · rw [hf]
            · exact h2 f hf
          · simp only [sentText, produced, and_self, if_true]
            exact (List.prefix_append_right_inj buf).mpr h3
          · intro hst
            simp only [ioCopy, hbuf, WebsocketIOWrapper.Write, hw] at hst
            simp only [ne_eq, not_true_eq_false, if_false, if_true] at hst
            simp only [sentText, produced, and_self, if_true]
            rw [h4 hst]
    · cases er with
      | some e =>
        refine ⟨[], ?_, by simp, by simp [sentText], ?_⟩
        · cases e <;> simp [ioCopy, hbuf, writtenOn]
        · intro _
          have : buf = [] := List.length_eq_zero.mp (by omega)
          simp [sentText, produced, this]
      | none =>
        obtain ⟨frames, h1, h2, h3, h4⟩ := ih c written
        have hnil : buf = [] := List.length_eq_zero.mp (by omega)
        refine ⟨frames, ?_, h2, ?_, ?_⟩
        · simp only [ioCopy, hbuf, if_false]
          exact h1
        · simpa [produced, hnil] using h3
        · intro hst
          simp only [ioCopy, hbuf, if_false] at hst
          simpa [produced, hnil] using h4 hst

theorem ioCopy_nil_conn (reader : Reader) : ∀ (written : Nat),
    (ioCopy { Conn := none } written reader).dst.Conn = none ∧
    ((ioCopy { Conn := none } written reader).status = .ret none → produced reader = []) := by
  induction reader with
  | nil => intro written; exact ⟨rfl, fun _ => rfl⟩
  | cons r src ih =>
    intro written
    obtain ⟨buf, er⟩ := r
    by_cases hbuf : 0 < buf.length
    · simp [ioCopy, hbuf, WebsocketIOWrapper.Write]
    · have hnil : buf = [] := List.length_eq_zero.mp (by omega)
      cases er with
      | some e => cases e <;> simp [ioCopy, hbuf, produced, hnil]
      | none =>
        simp only [ioCopy, hbuf, if_false, produced, hnil, List.nil_append]
        exact ih written

/-- A log session that holds a reader got it from `req.Stream()` without an
error, and ends with the connection and the status `io.Copy` left. -/
theorem HandleLog_reader (world : World) (values : Values) (reader : Reader)
    (h : (HandleLog world values).reader = some reader) :
    (∃ ns p lo, (world.logStream ns p lo).1 = some reader ∧
      (world.logStream ns p lo).2 = none) ∧
    (HandleLog world values).conn = (ioCopy { Conn := world.upgrade.1 } 0 reader).dst.Conn ∧
    (HandleLog world values).copied =
      some (ioCopy { Conn := world.upgrade.1 } 0 reader).status := by
  revert h
  simp only [HandleLog]
  split
  · simp
  · split
    · simp
    · split
      · simp
      · split
        · simp
        · intro h
          simp only [Option.some.injEq] at h
          subst h
          exact ⟨⟨_, _, _, by assumption, by assumption⟩, rfl, rfl⟩

/-- C9: in a log session whose remote stream opened without an error,
`HandleLog` adds only text frames to the connection, the payloads that went
out spell, in send order, a leading part of the bytes the remote stream
produces, and the whole of them when `io.Copy` ends with a nil error (remote
EOF, no write error); and every `Write` makes exactly one `WriteMessage` call,
of type text, with the given bytes as payload, and returns `len(p)`. -/
theorem HandleLog_copy (world : World) (values : Values) (reader : Reader)
    (h : (HandleLog world values).reader = some reader) :
    (∃ ns p lo, (world.logStream ns p lo).1 = some reader ∧
      (world.logStream ns p lo).2 = none) ∧
    (∃ frames, writtenOn (HandleLog world values).conn =
        writtenOn world.upgrade.1 ++ frames ∧
      (∀ f ∈ frames, f.messageType = TextMessage) ∧
      sentText frames <+: produced reader ∧
      ((HandleLog world values).copied = some (.ret none) →
        sentText frames = produced reader)) ∧
    (∀ (c : Conn) (p : List Byte),
      WebsocketIOWrapper.Write { Conn := some c } p =
        .ret ({ Conn := some (c.WriteMessage TextMessage p).1 }, p.length,
          (c.WriteMessage TextMessage p).2) ∧
      (c.WriteMessage TextMessage p).1.written =
        c.written ++ [⟨TextMessage, p, (c.WriteMessage TextMessage p).2⟩]) := by
  obtain ⟨hopen, hconn, hcopied⟩ := HandleLog_reader world values reader h
  refine ⟨hopen, ?_, fun c p => ⟨rfl, Conn_WriteMessage_written c TextMessage p⟩⟩
  rw [hconn, hcopied]
  cases hu : world.upgrade.1 with
  | none =>
    obtain ⟨h1, h2⟩ := ioCopy_nil_conn reader 0
    refine ⟨[], by simp [h1, writtenOn], by simp, by simp [sentText], ?_⟩
    intro hst
    simp only [Option.some.injEq] at hst
    rw [h2 hst]
    rfl
  | some c =>
    obtain ⟨frames, h1, h2, h3, h4⟩ := ioCopy_sent reader c 0
    refine ⟨frames, by simpa [writtenOn] using h1, h2, h3, ?_⟩
    intro hst
    simp only [Option.some.injEq] at hst
    exact h4 hst

/-- Witness of `HandleLog_copy`: the sample cluster's log, followed. -/
theorem HandleLog_copy_witness :
    ∃ frames, writtenOn (HandleLog (sampleWorld "Running") logQueryFollow).conn =
        writtenOn (sampleWorld "Running").upgrade.1 ++ frames ∧
      sentText frames = [104, 105, 10] :=
  ((HandleLog_copy (sampleWorld "Running") logQueryFollow
      [([104, 105], none), ([10], some ReadErr.EOF)] (by decide)).2.1).elim
    fun frames hf => ⟨frames, hf.1, hf.2.2.2 (by decide)⟩

/-- Witness of `container_default`: a request that names no container, in
the sample cluster, runs in the first container `web`. -/
theorem container_default_witness :
    (∃ eo, Event.newSPDYExecutor "default" "nginx" eo ∈
        (HandleExec (sampleWorld "Running") execQueryPlain).events ∧
      eo.Container = "web") ∧
    (Event.logStream "default" "nginx"
        { Container := "web", Timestamps := false, Follow := true, SinceTime := none } ∈
      (HandleLog (sampleWorld "Running") logQueryFollow).events) :=
  have h := container_default (sampleWorld "Running") execQueryPlain (samplePod "Running")
    ⟨"web"⟩ [⟨"sidecar"⟩] rfl
  have g := container_default (sampleWorld "Running") logQueryFollow (samplePod "Running")
    ⟨"web"⟩ [⟨"sidecar"⟩] rfl
  ⟨(h.1 execOptionPlain (by decide) (by decide)).2 rfl,
   (g.2 { PodName := "nginx", NameSpace := "default", Follow := true } none (by decide)
      (by decide) "default" "nginx"
      { Container := "web", Timestamps := false, Follow := true, SinceTime := none }).mpr
      ⟨rfl, rfl, rfl⟩⟩

/-! ## The handlers on requests they should refuse -/

/-- C1, evaluated: for the request
`pod=nginx&namespace=default&command=sh&stdin=false&tty=true` the parsed
stdin flag is false, yet `HandleExec` computes a raw TTY state over the
process terminal and hands `executor.Stream` its wrapper as `Stdin` with
`Tty = true`. -/
theorem HandleExec_ignores_stdin_flag :
    (getExecOption execQueryNoStdin).map ExecOption.stdin = some false ∧
    (HandleExec (sampleWorld "Running") execQueryNoStdin).t =
      some { In := some Stream.osStdin, Out := some Stream.osStdout, Raw := true } ∧
    Event.stream { Stdin := some Stream.ioWrapper, Stdout := some Stream.ioWrapper,
                   Stderr := none, Tty := true, TerminalSizeQueue := false } ∈
      (HandleExec (sampleWorld "Running") execQueryNoStdin).events := by
  decide

/-- C3, evaluated: for a pod in phase `Succeeded`, `HandleExec` reports the
completed-pod error and then goes on: it upgrades the connection, creates the
executor and calls `executor.Stream`. -/
theorem HandleExec_completed_pod_streams :
    (HandleExec (sampleWorld "Succeeded") execQueryPlain).events =
      [Event.getPod "default" "nginx",
       Event.httpError
         "cannot exec into a container in a completed pod; current phase is Succeeded" 500,
       Event.upgrade,
       Event.newSPDYExecutor "default" "nginx"
         { Container := "web", Command := ["ls"], Stdin := false, Stdout := true,
           Stderr := false, TTY := false },
       Event.stream { Stdin := some Stream.ioWrapper, Stdout := some Stream.ioWrapper,
                      Stderr := some Stream.ioWrapper, Tty := false,
                      TerminalSizeQueue := false }] := by
  decide

/-- C4, evaluated: for the query `pod=nginx&namespace=default&since=not-a-date`
`generateLogOptions` returns an error, and `HandleLog` reports it and then
goes on: it looks the pod up, upgrades the connection, opens the log stream
and copies it to the client. -/
theorem HandleLog_bad_since_streams :
    (generateLogOptions (sampleWorld "Running").parseRFC3339 logQueryBadSince).map Prod.snd =
      some (some "cannot parse not-a-date") ∧
    (HandleLog (sampleWorld "Running") logQueryBadSince).events =
      [Event.httpError "cannot parse not-a-date" 500,
       Event.getPod "default" "nginx",
       Event.upgrade,
       Event.logStream "default" "nginx"
         { Container := "web", Timestamps := false, Follow := false, SinceTime := none },
       Event.readerClose] ∧
    sentText (writtenOn (HandleLog (sampleWorld "Running") logQueryBadSince).conn) =
      [104, 105, 10] := by
  decide

end ExecLog
